import Mathlib

/-
Shallow embedding of the ExperiScript toolchain: the assembler and linker in
src/compiler.py and the virtual machine in src/vm.py. Definitions mirror the
Python source; machine values are Int (Python integers are unbounded), list
indexing follows Python semantics (negative indices wrap, out of range raises),
and fallible code returns Option or Except.
-/

deriving instance DecidableEq for Except

set_option maxRecDepth 40000

namespace ExperiScript

/-! ## ControlCodes (compiler.py, class ControlCodes) -/

def VARIABLE : Nat := 0x00
def MOVE : Nat := 0x01
def CONTROL : Nat := 0x02
def MATH : Nat := 0x03
def MEMORY : Nat := 0x04

def Variable.ONE : Nat := 251
def Variable.ZERO : Nat := 252

def Move.MOVE : Nat := 0x00
def Move.MOVE_I : Nat := 0x01

def Math.ADD : Nat := 0x00
def Math.ADD_I : Nat := 0x01
def Math.SUB : Nat := 0x02
def Math.SUB_I : Nat := 0x03

def Memory.LOAD : Nat := 0x00
def Memory.STORE : Nat := 0x01

def Control.IF_I : Nat := 0x00
def Control.JUMP : Nat := 0x03
def Control.JUMP_I : Nat := 0x05
def Control.JUMP_NOT_TRUE : Nat := 0x06

def Compare.EQUAL : Nat := 0x00

/-! ## Compiler data model

An operand of an emitted Instruction is either a raw number, a reference to a
Register object (identified by its slot), or a reference to a JumpMarker
(identified by its global id); Script.link maps these to plain integers. -/

inductive Arg where
  | num (n : Nat)
  | reg (slot : Nat)
  | marker (id : Nat)
  deriving DecidableEq, Repr

/-- An entry of a GenericScript bytecode list: a real Instruction (its field
list, domain and opcode included), a LogInstruction (no address), or a
JumpMarker placed at its target position. -/
inductive Item where
  | instr (fields : List Arg)
  | logNote
  | mark (id : Nat)
  deriving DecidableEq, Repr

/-- A Python value handed to an emitter operation: a plain number, a Register
object of a given subclass, a JumpMarker, or a Function (carrying the id of its
entry jump marker). The subclass matters because the emitter branches on
isinstance(x, VariableRegister) and isinstance(x, Function). -/
inductive PyVal where
  | num (n : Nat)
  | varReg (slot : Nat)
  | sysReg (slot : Nat)
  | globReg (slot : Nat)
  | staticReg (slot : Nat)
  | spReg (slot : Nat)
  | markerV (id : Nat)
  | funcV (entryMarker : Nat)
  deriving DecidableEq, Repr

/-- Python errors the assembler can raise. valueError models list.index failing
(no free register slot), attributeError models calling .free() on a non
Register value, typeError models calling a function with the wrong number of
arguments, and illegalMutation models the Exception raised in the body of
StaticRegister.set. -/
inductive EmErr where
  | valueError
  | attributeError
  | typeError
  | illegalMutation
  deriving DecidableEq, Repr

/-- True exactly for instances of VariableRegister (SystemRegister,
GlobalRegister, StaticRegister and StackPointer are not subclasses of it). -/
def isVarReg : PyVal → Bool
  | .varReg _ => true
  | _ => false

/-- How a PyVal is stored into an Instruction field list. -/
def toArg : PyVal → Arg
  | .num n => .num n
  | .varReg s => .reg s
  | .sysReg s => .reg s
  | .globReg s => .reg s
  | .staticReg s => .reg s
  | .spReg s => .reg s
  | .markerV id => .marker id
  | .funcV id => .marker id

/-! ## Register allocation (compiler.py, class Register)

Register._registers is a shared table of 255 slots. Allocation scans
registers[start:] for the first free slot (list.index raises ValueError when
none exists); free marks the slot unused again. -/

def Table : Type := Nat → Bool

def tset (t : Table) (i : Nat) (b : Bool) : Table :=
  fun j => if j = i then b else t j

/-- Scan of slots i, i+1, ..., i+n-1 for the first free one. -/
def scanFree (t : Table) : Nat → Nat → Option Nat
  | _, 0 => none
  | i, n + 1 => if t i = false then some i else scanFree t (i + 1) n

/-- Register.__init__ with register=None: self.registers[self.start:].index(None)
+ self.start over the 255 slot table, then mark the slot used. -/
def allocReg (start : Nat) (t : Table) : Option (Nat × Table) :=
  (scanFree t start (255 - start)).map (fun i => (i, tset t i true))

/-- Allocate n registers of one category in sequence. -/
def allocN (start : Nat) : Nat → Table → Option (List Nat × Table)
  | 0, t => some ([], t)
  | n + 1, t => do
    let (s, t1) ← allocReg start t
    let (rest, t2) ← allocN start n t1
    some (s :: rest, t2)

/-! ## Emitter state

A GenericScript owns a bytecode list; the register table and the JumpMarker
counter are process wide (class level) state shared by every script and
function, and the function return stack pointer register is shared between a
script and its functions. -/

structure EmitState where
  table : Table
  code : List Item
  nextMarker : Nat
  spSlot : Nat

def emit (it : Item) (st : EmitState) : EmitState :=
  { st with code := st.code ++ [it] }

/-- JumpMarker(): increment the class counter and take its new value as id. -/
def newMarker (st : EmitState) : Nat × EmitState :=
  (st.nextMarker + 1, { st with nextMarker := st.nextMarker + 1 })

def allocIn (start : Nat) (st : EmitState) : Except EmErr (Nat × EmitState) :=
  match allocReg start st.table with
  | some (s, t) => .ok (s, { st with table := t })
  | none => .error .valueError

/-- Register.free(): self.registers[self.register] = None. Calling .free() on a
value that is not a Register raises AttributeError. -/
def pyFree (v : PyVal) (st : EmitState) : Except EmErr EmitState :=
  match v with
  | .num _ => .error .attributeError
  | .markerV _ => .error .attributeError
  | .funcV _ => .error .attributeError
  | .varReg s => .ok { st with table := tset st.table s false }
  | .sysReg s => .ok { st with table := tset st.table s false }
  | .globReg s => .ok { st with table := tset st.table s false }
  | .staticReg s => .ok { st with table := tset st.table s false }
  | .spReg s => .ok { st with table := tset st.table s false }

/-- GenericScript.add(output, in1, in2): register variant when in2 is a
VariableRegister, immediate variant otherwise. -/
def emitAdd (output in1 : Arg) (in2 : PyVal) (st : EmitState) : EmitState :=
  if isVarReg in2 then
    emit (.instr [.num MATH, .num Math.ADD, output, in1, toArg in2]) st
  else
    emit (.instr [.num MATH, .num Math.ADD_I, output, in1, toArg in2]) st

/-- GenericScript.sub(output, in1, in2). -/
def emitSub (output in1 : Arg) (in2 : PyVal) (st : EmitState) : EmitState :=
  if isVarReg in2 then
    emit (.instr [.num MATH, .num Math.SUB, output, in1, toArg in2]) st
  else
    emit (.instr [.num MATH, .num Math.SUB_I, output, in1, toArg in2]) st

/-- Register.set(value): script.add(self, script.zero, value); the zero
register lives at the fixed slot 252. -/
def registerSet (selfSlot : Nat) (value : PyVal) (st : EmitState) : EmitState :=
  emitAdd (.reg selfSlot) (.reg Variable.ZERO) value st

/-- StaticRegister.__init__(script, register, value): Register.__init__ at the
caller supplied fixed slot, then an optional creation time initialization via
Register.set. -/
def staticRegisterInit (slot : Nat) (value : Option PyVal) (st : EmitState) :
    EmitState :=
  let st1 := { st with table := tset st.table slot true }
  match value with
  | some v => registerSet slot v st1
  | none => st1

/-- The body of StaticRegister.set as written in the source. It is declared as
def set(value) with a single parameter and no self, so this body runs only when
the function receives exactly one argument; it raises the IllegalMutation
exception unconditionally. -/
def staticSetBody (_value : PyVal) : Except EmErr Unit :=
  .error .illegalMutation

/-- A method call reg.set(v) on a StaticRegister: Python passes the receiver
plus the explicit argument, two arguments in total, to the one parameter
function above, so the call raises TypeError before the body can run; no state
is produced, so the register table and the bytecode list are untouched. -/
def staticSetCall (_self _v : PyVal) (_st : EmitState) : Except EmErr EmitState :=
  .error .typeError

/-! ## GenericScript.move (compiler.py lines 224-278)

The register branch is entered when any argument is a VariableRegister. Its
first line is rldir = rdir (the source text, not ldir); each argument that is
not a VariableRegister is replaced by a fresh SystemRegister set to it via
Register.set; the emitted instruction carries opcode Move.MOVE_I, and the
constants only branch carries opcode Move.MOVE. Afterwards .free() is called on
all four locals, whatever they hold. -/

def allocSysSet (v : PyVal) (st : EmitState) : Except EmErr (PyVal × EmitState) := do
  let (s, st1) ← allocIn 125 st
  let st2 := registerSet s v st1
  .ok (.sysReg s, st2)

def moveOp (ldir rdir lspeed rspeed : PyVal) (st : EmitState) :
    Except EmErr EmitState :=
  if isVarReg ldir || isVarReg rdir || isVarReg lspeed || isVarReg rspeed then do
    let (rldir, st) ← if isVarReg ldir then pure (rdir, st) else allocSysSet ldir st
    let (rrdir, st) ← if isVarReg rdir then pure (rdir, st) else allocSysSet rdir st
    let (rlspeed, st) ← if isVarReg lspeed then pure (lspeed, st) else allocSysSet lspeed st
    let (rrspeed, st) ← if isVarReg rspeed then pure (rspeed, st) else allocSysSet rspeed st
    let st := emit (.instr [.num MOVE, .num Move.MOVE_I,
      toArg rldir, toArg rrdir, toArg rlspeed, toArg rrspeed]) st
    let st ← pyFree rldir st
    let st ← pyFree rrdir st
    let st ← pyFree rlspeed st
    let st ← pyFree rrspeed st
    .ok st
  else
    .ok (emit (.instr [.num MOVE, .num Move.MOVE,
      toArg ldir, toArg rdir, toArg lspeed, toArg rspeed]) st)

/-! ## StackPointer push and pop (compiler.py lines 137-151) -/

/-- StackPointer.push(value): a log entry, then new_idx = VariableRegister()
(allocated and never used or freed), then add(self, self, 1), then the STORE
instruction with value as its second operand. -/
def spPush (value : PyVal) (st : EmitState) : Except EmErr EmitState := do
  let st := emit .logNote st
  let (_newIdx, st) ← allocIn 50 st
  let st := emitAdd (.reg st.spSlot) (.reg st.spSlot) (.num 1) st
  let st := emit (.instr [.num MEMORY, .num Memory.STORE,
    .reg st.spSlot, toArg value]) st
  .ok st

/-- StackPointer.pop(variable): a log entry, the LOAD instruction, then
sub(self, self, 1). -/
def spPop (dest : Arg) (st : EmitState) : EmitState :=
  let st := emit .logNote st
  let st := emit (.instr [.num MEMORY, .num Memory.LOAD,
    .reg st.spSlot, dest]) st
  emitSub (.reg st.spSlot) (.reg st.spSlot) (.num 1) st

/-! ## Jumps, conditional call, call, function end -/

/-- GenericScript.jump(loc): register indirect JUMP for a VariableRegister,
JUMP_I to the entry marker for a Function, JUMP_I with loc itself otherwise (a
Register that is not a VariableRegister ends up as a JUMP_I operand and links
to its slot number). -/
def jumpOp (loc : PyVal) (st : EmitState) : EmitState :=
  match loc with
  | .varReg s => emit (.instr [.num CONTROL, .num Control.JUMP, .reg s]) st
  | .funcV entry => emit (.instr [.num CONTROL, .num Control.JUMP_I, .marker entry]) st
  | other => emit (.instr [.num CONTROL, .num Control.JUMP_I, toArg other]) st

/-- GenericScript.add_if(compare, var1, var2, function): two log entries, a
fresh SystemRegister for the compare result (never freed), the IF_I
instruction, a fresh jump marker, the JUMP_NOT_TRUE instruction targeting it,
push of the marker onto the return stack, the jump to the function, then the
marker itself and two closing log entries. -/
def addIf (compare : Nat) (var1 var2 : PyVal) (function : PyVal)
    (st : EmitState) : Except EmErr EmitState := do
  let st := emit .logNote st
  let st := emit .logNote st
  let (result, st) ← allocIn 125 st
  let st := emit (.instr [.num CONTROL, .num Control.IF_I,
    .num compare, toArg var1, toArg var2, .reg result]) st
  let (jm, st) := newMarker st
  let st := emit (.instr [.num CONTROL, .num Control.JUMP_NOT_TRUE,
    .reg result, .marker jm]) st
  let st ← spPush (.markerV jm) st
  let st := jumpOp function st
  let st := emit (.mark jm) st
  let st := emit .logNote st
  let st := emit .logNote st
  .ok st

/-- GenericScript.call(function): a fresh marker as resume point, pushed onto
the return stack, the jump to the function, then the marker placed after. -/
def callOp (function : PyVal) (st : EmitState) : Except EmErr EmitState := do
  let (jm, st) := newMarker st
  let st ← spPush (.markerV jm) st
  let st := jumpOp function st
  .ok (emit (.mark jm) st)

/-- Function.end(): a log entry, a fresh SystemRegister pop_pointer, pop into
it, jump(pop_pointer) (pop_pointer is a SystemRegister, not a VariableRegister,
so this emits JUMP_I whose operand links to the slot number), free the
temporary, two closing log entries. -/
def funcEnd (st : EmitState) : Except EmErr EmitState := do
  let st := emit .logNote st
  let (pp, st) ← allocIn 125 st
  let st := spPop (.reg pp) st
  let st := jumpOp (.sysReg pp) st
  let st ← pyFree (.sysReg pp) st
  let st := emit .logNote st
  .ok (emit .logNote st)

/-! ## Build and link (compiler.py, GenericScript.build and Script.link)

Script.build concatenates start_bytecode, every function body in registration
order, and the main bytecode; GenericScript.build then assigns every real
Instruction a sequential line number and records, for each JumpMarker item, the
running instruction count as its resolved line (the last placement wins, as the
Python loop overwrites marker.line). Script.link rewrites each Instruction
field: a Register becomes its slot, a JumpMarker its resolved line, and the
field count is prepended as a length prefix. An unresolved marker leaves None
in the operand list in Python, which every later use rejects; this is modelled
as link failure. -/

def realInstrs (its : List Item) : List (List Arg) :=
  its.filterMap fun it =>
    match it with
    | .instr a => some a
    | _ => none

def realCount (its : List Item) : Nat := (realInstrs its).length

def markerLineAux (id : Nat) : List Item → Nat → Option Nat → Option Nat
  | [], _, acc => acc
  | .instr _ :: r, c, acc => markerLineAux id r (c + 1) acc
  | .logNote :: r, c, acc => markerLineAux id r c acc
  | .mark m :: r, c, acc =>
      markerLineAux id r c (if m = id then some c else acc)

def markerLine (its : List Item) (id : Nat) : Option Nat :=
  markerLineAux id its 0 none

def resolveArg (its : List Item) : Arg → Option Nat
  | .num n => some n
  | .reg s => some s
  | .marker id => markerLine its id

def omapM (f : α → Option β) : List α → Option (List β)
  | [] => some []
  | a :: as => do
    let b ← f a
    let bs ← omapM f as
    some (b :: bs)

def linkOne (its : List Item) (args : List Arg) : Option (List Nat) :=
  (omapM (resolveArg its) args).map fun fs => fs.length :: fs

/-- The sequence of linked field lists (length prefix first) of the real
instructions of an item list, in program order. -/
def linkItems (its : List Item) : Option (List (List Nat)) :=
  omapM (linkOne its) (realInstrs its)

/-! ## Script construction (compiler.py, Script.__init__)

Script() first runs GenericScript.__init__: the zero and one StaticRegisters at
fixed slots 252 and 251 (no creation time value, so no instruction), then the
return stack StackPointer allocated at 250 whose set(150) emits the first real
instruction. Script.__init__ then creates the start marker (the first
JumpMarker, id 1) and emits jump(marker) as the second instruction; these two
form start_bytecode, and the main bytecode begins with the marker itself and a
log entry. -/

def scriptStartItems : List Item :=
  [.instr [.num MATH, .num Math.ADD_I, .reg 250, .reg Variable.ZERO, .num 150],
   .instr [.num CONTROL, .num Control.JUMP_I, .marker 1]]

/-- The full item list of a built Script: start_bytecode, then the function
bodies in registration order, then the main bytecode. -/
def scriptItems (funcs mainB : List Item) : List Item :=
  scriptStartItems ++ funcs ++ (.mark 1 :: .logNote :: mainB)

/-! ## Binary serialization (compiler.py, Script.construct)

Each field of each real instruction is rendered by format(x, "08b"): the
minimal binary representation of x, zero padded on the left to at least 8
digits — a value above 255 silently yields more than 8 digits. The bit stream
is modelled as a list of bits (each 0 or 1). -/

/-- Minimal binary digits, most significant first, with explicit fuel (the
fuel only needs to exceed the argument, which binDigits below arranges). -/
def binDigitsF : Nat → Nat → List Nat
  | 0, _ => []
  | fuel + 1, x => if x < 2 then [x] else binDigitsF fuel (x / 2) ++ [x % 2]

/-- Minimal binary digits of a natural number, most significant first. -/
def binDigits (x : Nat) : List Nat := binDigitsF (x + 1) x

/-- format(x, "08b"): left pad with zeros to width 8 (wider values unpadded). -/
def fmt08 (x : Nat) : List Nat :=
  List.replicate (8 - (binDigits x).length) 0 ++ binDigits x

/-- Script.construct on the linked field lists: concatenate the 8 bit render
of every field of every real instruction. -/
def construct (l : List (List Nat)) : List Nat :=
  l.flatMap fun i => i.flatMap fmt08

/-! ## Stream parsing (vm.py, class StringParser) -/

/-- Value of a bit string read as a base 2 integer (int(s, 2)). -/
def bitsToNat (l : List Nat) : Nat :=
  l.foldl (fun a b => 2 * a + b) 0

/-- StringParser.byte: int(string[:8], 2) and the rest of the string; int("",
2) on an empty string raises, modelled as none. -/
def pByte (s : List Nat) : Option (Nat × List Nat) :=
  match s with
  | [] => none
  | _ => some (bitsToNat (s.take 8), s.drop 8)

/-- Read n further bytes (the while loop of StringParser.parse). -/
def pFields : Nat → List Nat → Option (List Nat × List Nat)
  | 0, s => some ([], s)
  | n + 1, s => do
    let (b, s1) ← pByte s
    let (bs, s2) ← pFields n s1
    some (b :: bs, s2)

/-- StringParser.parse: read a length prefix, then that many fields, keep the
prefix at the head of the decoded instruction, and recurse while input
remains. The fuel bounds the number of instructions decoded; any fuel at least
the instruction count behaves like the unbounded Python recursion. -/
def parseStream : Nat → List Nat → Option (List (List Nat))
  | 0, _ => none
  | fuel + 1, s => do
    let (length, s1) ← pByte s
    let (fs, s2) ← pFields length s1
    let inst := length :: fs
    if s2.isEmpty then
      some [inst]
    else do
      let rest ← parseStream fuel s2
      some (inst :: rest)

/-! ## Virtual machine (vm.py)

Memory is the 255 slot list [0] * 255 with slot 251 set to 1 and slot 252 set
to 0. Values are Int (Python integers); indexing follows Python list semantics:
an index i is valid when -len <= i < len, negative indices wrap by adding len,
anything else raises IndexError. The program counter is Int because jump sets
it from a memory value. -/

inductive VMErr where
  | indexError
  | keyError
  | typeError
  deriving DecidableEq, Repr

structure VMState where
  registers : List Int
  current_idx : Int
  deriving DecidableEq, Repr

def vmInitRegisters : List Int :=
  ((List.replicate 255 (0 : Int)).set Variable.ONE 1).set Variable.ZERO 0

def vmInit : VMState := ⟨vmInitRegisters, 0⟩

/-- Python list index normalization. -/
def pyIndex (len : Nat) (i : Int) : Except VMErr Nat :=
  if 0 ≤ i then
    if i < (len : Int) then .ok i.toNat else .error .indexError
  else
    if 0 ≤ i + (len : Int) then .ok (i + (len : Int)).toNat
    else .error .indexError

/-- Python regs[i] for an Int index. -/
def pyGetI (regs : List Int) (i : Int) : Except VMErr Int := do
  let n ← pyIndex regs.length i
  .ok (regs.getD n 0)

/-- Python regs[i] = v for an Int index. -/
def pySetI (regs : List Int) (i : Int) (v : Int) : Except VMErr (List Int) := do
  let n ← pyIndex regs.length i
  .ok (regs.set n v)

/-- Memory.store(register, value): registers[registers[register]] = value. The
second operand is written as it stands; it is not used as a slot index. -/
def memStore (regs : List Int) (register value : Nat) :
    Except VMErr (List Int) := do
  let addr ← pyGetI regs register
  pySetI regs addr value

/-- Memory.load(register, dest): registers[dest] =
registers[registers[register]]. -/
def memLoad (regs : List Int) (register dest : Nat) :
    Except VMErr (List Int) := do
  let addr ← pyGetI regs register
  let v ← pyGetI regs addr
  pySetI regs dest v

def incIdx (s : VMState) : VMState :=
  { s with current_idx := s.current_idx + 1 }

/-- Dispatch of one decoded instruction body: VM.run looks up
instruction_map[control][control_sub] (KeyError when absent) and calls it with
the remaining fields (TypeError on an arity mismatch). Operations marked
skip_increment (the three jumps) leave the program counter entirely to
themselves; every other operation is followed by current_idx += 1. VM.
if_immediate stores the Python boolean var1 == var2, which is the integer 1 or
0. VM.jump_not_true jumps exactly when the condition register holds a truthy
(nonzero) value and does not touch the counter otherwise. -/
def execOp (control csub : Nat) (args : List Nat) (s : VMState) :
    Except VMErr VMState :=
  match control, csub, args with
  | 1, 0, [_, _, _, _] => .ok (incIdx s)  -- MOVE / robot.move
  | 1, 1, [_, _, _, _] => .ok (incIdx s)  -- MOVE_I / robot.move_immediate
  | 3, 0, [output, r1, r2] => do          -- MATH / AMU.add
      let a ← pyGetI s.registers r1
      let b ← pyGetI s.registers r2
      let regs ← pySetI s.registers output (a + b)
      .ok (incIdx { s with registers := regs })
  | 3, 1, [output, r1, r2] => do          -- MATH / AMU.add_immediate
      let a ← pyGetI s.registers r1
      let regs ← pySetI s.registers output (a + (r2 : Int))
      .ok (incIdx { s with registers := regs })
  | 3, 2, [output, r1, r2] => do          -- MATH / AMU.sub
      let a ← pyGetI s.registers r1
      let b ← pyGetI s.registers r2
      let regs ← pySetI s.registers output (a - b)
      .ok (incIdx { s with registers := regs })
  | 3, 3, [output, r1, r2] => do          -- MATH / AMU.sub_immediate
      let a ← pyGetI s.registers r1
      let regs ← pySetI s.registers output (a - (r2 : Int))
      .ok (incIdx { s with registers := regs })
  | 2, 0, [compare, var1, var2, result] => do  -- CONTROL / VM.if_immediate
      let a ← pyGetI s.registers var1
      let b ← pyGetI s.registers var2
      if compare = 0 then do
        let regs ← pySetI s.registers result (if a = b then 1 else 0)
        .ok (incIdx { s with registers := regs })
      else
        .ok (incIdx s)
  | 2, 3, [location] => do                -- CONTROL / VM.jump
      let line ← pyGetI s.registers location
      .ok { s with current_idx := line }
  | 2, 5, [location] =>                   -- CONTROL / VM.jump_immediate
      .ok { s with current_idx := (location : Int) }
  | 2, 6, [register, location] => do      -- CONTROL / VM.jump_not_true
      let v ← pyGetI s.registers register
      if v ≠ 0 then .ok { s with current_idx := (location : Int) }
      else .ok s
  | 4, 0, [register, dest] => do          -- MEMORY / Memory.load
      let regs ← memLoad s.registers register dest
      .ok (incIdx { s with registers := regs })
  | 4, 1, [register, value] => do         -- MEMORY / Memory.store
      let regs ← memStore s.registers register value
      .ok (incIdx { s with registers := regs })
  | 1, 0, _ => .error .typeError
  | 1, 1, _ => .error .typeError
  | 3, 0, _ => .error .typeError
  | 3, 1, _ => .error .typeError
  | 3, 2, _ => .error .typeError
  | 3, 3, _ => .error .typeError
  | 2, 0, _ => .error .typeError
  | 2, 3, _ => .error .typeError
  | 2, 5, _ => .error .typeError
  | 2, 6, _ => .error .typeError
  | 4, 0, _ => .error .typeError
  | 4, 1, _ => .error .typeError
  | _, _, _ => .error .keyError

/-- One instruction as fetched: field 0 is the length prefix (unread by the
VM), field 1 the domain, field 2 the opcode, the rest the operands. -/
def execInst (inst : List Nat) (s : VMState) : Except VMErr VMState :=
  match inst with
  | _ :: control :: csub :: args => execOp control csub args s
  | _ => .error .indexError

/-- One iteration of the VM.run while loop: none signals a normal halt
(current_idx at or past the end). -/
def vmStep (insts : List (List Nat)) (s : VMState) :
    Except VMErr (Option VMState) := do
  if s.current_idx < (insts.length : Int) then do
    let i ← pyIndex insts.length s.current_idx
    let s1 ← execInst (insts.getD i []) s
    .ok (some s1)
  else
    .ok none

/-- Run at most fuel iterations of the VM loop; stops early on a normal halt
and returns the state reached. -/
def vmRun (insts : List (List Nat)) : Nat → VMState → Except VMErr VMState
  | 0, s => .ok s
  | fuel + 1, s => do
    match ← vmStep insts s with
    | none => .ok s
    | some s1 => vmRun insts fuel s1

/-! ## A concrete conditional call scenario

The spec scenario for conditionalCall: a Script with one Function f whose body
writes 50 into a Global register var2 (add(var2, zero, 50)), and a main body
that sets a Variable register var_eq to a chosen constant and then runs
add_if(EQUAL, var2, var_eq, f). Both var2 and var_eq start at 0 in VM memory,
so the guard compares equal exactly when the constant is 0. The item list is
produced by the emitter model above, mirroring the source line by line. -/

def tbl0 : Table := fun _ => false

/-- The register table right after Script(): the zero and one StaticRegisters
at 252 and 251 and the return stack StackPointer at 250. -/
def c3BaseTable : Table := tset (tset (tset tbl0 252 true) 251 true) 250 true

/-- Emitter state after Script(): the start marker took JumpMarker id 1, and
the main bytecode begins with that marker and the Main log entry. -/
def c3St0 : EmitState := ⟨c3BaseTable, [.mark 1, .logNote], 1, 250⟩

def c3Build (eqv : Nat) : Except EmErr (List Item) := do
  let (var2, st) ← allocIn 100 c3St0
  let (entry, st) := newMarker st
  let mainCode := st.code
  let st := { st with code := [.logNote, .mark entry] }
  let st := emitAdd (.reg var2) (.reg Variable.ZERO) (.num 50) st
  let st ← funcEnd st
  let fCode := st.code
  let st := { st with code := mainCode }
  let (varEq, st) ← allocIn 50 st
  let st := registerSet varEq (.num eqv) st
  let st ← addIf Compare.EQUAL (.globReg var2) (.varReg varEq) (.funcV entry) st
  .ok (scriptStartItems ++ fCode ++ st.code)

def c3Linked (eqv : Nat) : Option (List (List Nat)) :=
  match c3Build eqv with
  | .ok its => linkItems its
  | .error _ => none

/-! ## Concrete states used by individual results -/

/-- Memory with slot 5 holding 7 and slot 3 holding 99. -/
def c2Regs : List Int := ((List.replicate 255 (0 : Int)).set 5 7).set 3 99

/-- Emitter state in which the caller owns the Variable registers 50 and 51. -/
def c5St : EmitState := ⟨tset (tset c3BaseTable 50 true) 51 true, [], 0, 250⟩

/-- Table resulting from allocating the System registers 125 and 126 on top of
the base table. -/
def c6Table1 : Table := tset (tset c3BaseTable 125 true) 126 true

/-- Emitter state with a Global register at 100 and a Variable register at 50
already allocated, as in the conditional call scenario. -/
def c9St : EmitState := ⟨tset (tset c3BaseTable 100 true) 50 true, [], 2, 250⟩

/-- A one instruction program used to run the serializer round trip. -/
def c4Items : List Item :=
  [.instr [.num MOVE, .num Move.MOVE, .num 2, .num 3, .num 4, .num 5]]

def c4Linked : List (List Nat) := [[6, 1, 0, 2, 3, 4, 5]]

/-- A main body of one real instruction, with no functions. -/
def c10Main : List Item :=
  [.instr [.num MOVE, .num Move.MOVE, .num 1, .num 1, .num 1, .num 1]]

/-- One function body of one real instruction between two markers. -/
def c10Funcs : List Item :=
  [.logNote, .mark 2,
   .instr [.num MATH, .num Math.ADD_I, .reg 100, .reg Variable.ZERO, .num 50]]

/-- The linked form of the script built from c10Funcs and c10Main. -/
def c10Linked : List (List Nat) :=
  [[5, 3, 1, 250, 252, 150], [3, 2, 5, 3], [5, 3, 1, 100, 252, 50],
   [6, 1, 0, 1, 1, 1, 1]]

/-! # Lemmas and results

Helper lemmas first, then one named theorem per claim (with witnesses and
counterexamples where the status calls for them). -/

/-! ## Register allocator lemmas -/

theorem tset_same (t : Table) (i : Nat) (b : Bool) : tset t i b i = b := by
  simp [tset]

theorem tset_other (t : Table) (i j : Nat) (b : Bool) (h : j ≠ i) :
    tset t i b j = t j := by
  simp [tset, h]

theorem scanFree_some (t : Table) :
    ∀ n i j, scanFree t i n = some j →
      i ≤ j ∧ j < i + n ∧ t j = false ∧ ∀ k, i ≤ k → k < j → t k = true := by
  intro n
  induction n with
  | zero => intro i j h; simp [scanFree] at h
  | succ n ih =>
    intro i j h
    by_cases hf : t i = false
    · simp [scanFree, hf] at h
      subst h
      exact ⟨le_refl _, by omega, hf, fun k hk1 hk2 => absurd (lt_of_le_of_lt hk1 hk2) (lt_irrefl _)⟩
    · simp [scanFree, hf] at h
      obtain ⟨h1, h2, h3, h4⟩ := ih (i + 1) j h
      refine ⟨by omega, by omega, h3, ?_⟩
      intro k hk1 hk2
      rcases Nat.eq_or_lt_of_le hk1 with rfl | hlt
      · simpa using hf
      · exact h4 k (by omega) hk2

theorem scanFree_complete (t : Table) :
    ∀ n i j, i ≤ j → j < i + n → t j = false →
      (∀ k, i ≤ k → k < j → t k = true) → scanFree t i n = some j := by
  intro n
  induction n with
  | zero => intro i j h1 h2; omega
  | succ n ih =>
    intro i j h1 h2 h3 h4
    rcases Nat.eq_or_lt_of_le h1 with rfl | hlt
    · simp [scanFree, h3]
    · have hi : t i = true := h4 i (le_refl _) hlt
      simp [scanFree, hi]
      exact ih (i + 1) j (by omega) (by omega) h3 (fun k hk1 hk2 => h4 k (by omega) hk2)

theorem allocReg_some (start : Nat) (t : Table) (s : Nat) (t1 : Table)
    (h : allocReg start t = some (s, t1)) :
    scanFree t start (255 - start) = some s ∧ t1 = tset t s true := by
  unfold allocReg at h
  cases hs : scanFree t start (255 - start) with
  | none => rw [hs] at h; simp at h
  | some j =>
    rw [hs] at h
    simp at h
    obtain ⟨h1, h2⟩ := h
    subst h1
    exact ⟨rfl, h2.symm⟩

theorem allocN_succ_inv (start n : Nat) (t : Table) (slots : List Nat)
    (t2 : Table) (h : allocN start (n + 1) t = some (slots, t2)) :
    ∃ s tA rest, allocReg start t = some (s, tA) ∧
      allocN start n tA = some (rest, t2) ∧ slots = s :: rest := by
  simp only [allocN] at h
  cases ha : allocReg start t with
  | none => rw [ha] at h; simp at h
  | some p =>
    obtain ⟨s, tA⟩ := p
    rw [ha] at h
    simp only [Option.bind_eq_bind, Option.some_bind] at h
    cases hb : allocN start n tA with
    | none => rw [hb] at h; simp at h
    | some q =>
      obtain ⟨rest, tB⟩ := q
      rw [hb] at h
      simp at h
      obtain ⟨h1, h2⟩ := h
      subst h2
      exact ⟨s, tA, rest, rfl, hb, h1.symm⟩

theorem allocN_mono (start : Nat) :
    ∀ n t slots t1, allocN start n t = some (slots, t1) →
      ∀ j, t j = true → t1 j = true := by
  intro n
  induction n with
  | zero => intro t slots t1 h j hj; simp [allocN] at h; rw [← h.2]; exact hj
  | succ n ih =>
    intro t slots t1 h j hj
    obtain ⟨s, tA, rest, ha, hb, -⟩ := allocN_succ_inv start n t slots t1 h
    have htA := (allocReg_some start t s tA ha).2
    refine ih tA rest t1 hb j ?_
    subst htA
    by_cases hjs : j = s
    · subst hjs; exact tset_same t j true
    · rw [tset_other t s j true hjs]; exact hj

theorem allocN_fresh (start : Nat) :
    ∀ n t slots t1, allocN start n t = some (slots, t1) →
      ∀ s, s ∈ slots → t s = false := by
  intro n
  induction n with
  | zero =>
    intro t slots t1 h s hs
    simp [allocN] at h
    rw [h.1] at hs
    simp at hs
  | succ n ih =>
    intro t slots t1 h s hs
    obtain ⟨s0, tA, rest, ha, hb, hcons⟩ := allocN_succ_inv start n t slots t1 h
    obtain ⟨hscan, htA⟩ := allocReg_some start t s0 tA ha
    subst hcons
    rcases List.mem_cons.mp hs with rfl | hmem
    · exact (scanFree_some t _ _ _ hscan).2.2.1
    · have hfree := ih tA rest t1 hb s hmem
      subst htA
      by_cases hjs : s = s0
      · subst hjs; rw [tset_same] at hfree; exact absurd hfree (by simp)
      · rwa [tset_other t s0 s true hjs] at hfree

theorem allocN_nodup (start : Nat) :
    ∀ n t slots t1, allocN start n t = some (slots, t1) → slots.Nodup := by
  intro n
  induction n with
  | zero => intro t slots t1 h; simp [allocN] at h; rw [h.1]; exact List.nodup_nil
  | succ n ih =>
    intro t slots t1 h
    obtain ⟨s0, tA, rest, ha, hb, hcons⟩ := allocN_succ_inv start n t slots t1 h
    subst hcons
    refine List.nodup_cons.mpr ⟨?_, ih tA rest t1 hb⟩
    intro hmem
    have hfree := allocN_fresh start n tA rest t1 hb s0 hmem
    have htA := (allocReg_some start t s0 tA ha).2
    subst htA
    rw [tset_same] at hfree
    exact absurd hfree (by simp)

end ExperiScript


namespace ExperiScript

/-- C6: allocation returns the first unused slot at or above the category
start offset; allocating N registers of one category yields pairwise distinct
slots (a free slot is never handed out twice before release), and after
releasing the first of them the next allocation of that category returns
exactly the released slot. -/
theorem register_alloc_C6 (start n : Nat) (t : Table) (s0 : Nat)
    (rest : List Nat) (t1 : Table)
    (h : allocN start (n + 1) t = some (s0 :: rest, t1)) :
    (start ≤ s0 ∧ s0 < 255 ∧ t s0 = false ∧
      ∀ j, start ≤ j → j < s0 → t j = true) ∧
    (s0 :: rest).Nodup ∧
    (allocReg start (tset t1 s0 false)).map Prod.fst = some s0 := by
  obtain ⟨s, tA, rest2, ha, hb, hcons⟩ := allocN_succ_inv start n t _ t1 h
  injection hcons with hcons1 hcons2
  subst hcons1
  subst hcons2
  obtain ⟨hscan, htA⟩ := allocReg_some start t s0 tA ha
  obtain ⟨hle, hlt, hfree, hbefore⟩ := scanFree_some t _ _ _ hscan
  have hub : s0 < 255 := by omega
  refine ⟨⟨hle, hub, hfree, hbefore⟩, allocN_nodup start (n + 1) t _ t1 h, ?_⟩
  have hcomp : scanFree (tset t1 s0 false) start (255 - start) = some s0 := by
    refine scanFree_complete _ _ _ _ hle (by omega) (tset_same _ _ _) ?_
    intro k hk1 hk2
    rw [tset_other _ _ _ _ (by omega)]
    have htk : tA k = true := by
      subst htA
      rw [tset_other _ _ _ _ (by omega)]
      exact hbefore k hk1 hk2
    exact allocN_mono start n tA _ t1 hb k htk
  unfold allocReg
  rw [hcomp]
  rfl

end ExperiScript

namespace ExperiScript

theorem register_alloc_C6_witness :
    allocN 125 2 c3BaseTable = some ([125, 126], c6Table1) ∧
    (([125, 126] : List Nat).Nodup ∧
      (allocReg 125 (tset c6Table1 125 false)).map Prod.fst = some 125) := by
  have h : allocN 125 2 c3BaseTable = some ([125, 126], c6Table1) := rfl
  exact ⟨h, (register_alloc_C6 125 1 c3BaseTable 125 [126] c6Table1 h).2⟩

/-- C1: the claim says jump-if-not-true sets the program counter to the target
exactly when the condition slot holds 0 and otherwise advances it by 1. The VM
does neither: with the condition slot at 0 (slot 10 of the fresh memory) the
state is returned entirely unchanged (the counter is neither set to the target
5 nor incremented, so the instruction repeats forever), and with a truthy
condition (slot 251 holds 1) the counter is set to the target. -/
theorem jump_not_true_C1_bug :
    execInst [4, 2, 6, 10, 5] vmInit = .ok vmInit ∧
    execInst [4, 2, 6, 251, 5] vmInit = .ok { vmInit with current_idx := 5 } := by
  refine ⟨by decide, by decide⟩

/-- C2 counterexample: with memory holding 7 at slot 5 and 99 at slot 3,
executing store(addrSlot 5, valueSlot 3) leaves 3 itself at slot 7, not the 99
that array[valueSlot] holds, so store does not write array[valueSlot]. -/
theorem memory_store_C2_counterexample :
    (memStore c2Regs 5 3).map (fun r => r.getD 7 0) = .ok 3 ∧
    c2Regs.getD 3 0 = 99 ∧ (3 : Int) ≠ 99 := by
  refine ⟨by decide, by decide, by decide⟩

/-- C3: the conditional call scenario program (guard var2 == var_eq with both 0
when the constant is 0) shows the VM never invokes the guarded function when
the operands are equal: the run halts (counter 12, the program length) with
var2 (slot 100) still 0 even though the function body would have written 50,
because the compare wrote the truthy 1 into slot 125 and jump_not_true then
jumped over the call. With the constant 1 (operands unequal) the VM does not
fall through either: after the 4 steps that reach the jump_not_true at address
8 the state never changes again (100 further steps leave it identical), an
infinite loop. -/
theorem conditional_call_C3_bug :
    ((c3Linked 0).getD []).length = 12 ∧
    (vmRun ((c3Linked 0).getD []) 20 vmInit).map
      (fun s => (s.current_idx, s.registers.getD 100 0, s.registers.getD 125 0))
      = .ok (12, 0, 1) ∧
    (vmRun ((c3Linked 1).getD []) 4 vmInit).map (fun s => s.current_idx)
      = .ok 8 ∧
    vmRun ((c3Linked 1).getD []) 4 vmInit
      = vmRun ((c3Linked 1).getD []) 104 vmInit := by
  refine ⟨by decide, by decide, by decide, by decide⟩

/-- C5: three failures of the claim on GenericScript.move. An all constant
call emits opcode Move.MOVE (dispatched to robot.move), not the move immediate
opcode Move.MOVE_I. A call with a Variable register leftDir but constant
rightDir crashes with AttributeError: the source line rldir = rdir leaves the
raw constant in rldir and .free() is then called on it. A call with both
directions Variable registers emits rightDir twice and drops leftDir, and the
unconditional frees release the caller owned register 51. -/
theorem move_C5_bug :
    (moveOp (.num 2) (.num 3) (.num 4) (.num 5) c5St).map (fun st => st.code)
      = .ok [.instr [.num MOVE, .num Move.MOVE, .num 2, .num 3, .num 4, .num 5]] ∧
    Move.MOVE ≠ Move.MOVE_I ∧
    moveOp (.varReg 50) (.num 3) (.num 4) (.num 5) c5St = .error .attributeError ∧
    (moveOp (.varReg 50) (.varReg 51) (.num 1) (.num 2) c5St).map
      (fun st => (st.code.getLast?, st.table 51, st.table 50))
      = .ok (some (.instr [.num MOVE, .num Move.MOVE_I,
          .reg 51, .reg 51, .reg 125, .reg 126]), false, true) := by
  refine ⟨by decide, by decide, rfl, by decide⟩

/-- C7 counterexample: a set attempt on a constructed Static register raises
TypeError (the method is declared without self, so the bound call has one
argument too many); it does not raise the IllegalMutation exception the claim
names, which sits unreachable in the method body. -/
theorem static_set_C7_counterexample :
    staticSetCall (.staticReg Variable.ZERO) (.num 5) c3St0 = .error .typeError ∧
    EmErr.typeError ≠ EmErr.illegalMutation ∧
    staticSetCall (.staticReg Variable.ZERO) (.num 5) c3St0
      ≠ .error .illegalMutation := by
  refine ⟨rfl, by decide, ?_⟩
  intro h
  simp [staticSetCall] at h

/-- C7 amended: initialization at creation time succeeds, emitting the
add with zero instruction and marking the slot used; every subsequent set
attempt on a Static register fails (leaving the register table and the emitted
instruction list untouched, as no successor state is produced), though with a
TypeError rather than the IllegalMutation exception. -/
theorem static_register_C7_amended (slot n : Nat) (st : EmitState)
    (selfv w : PyVal) (st2 : EmitState) :
    (staticRegisterInit slot (some (.num n)) st).code
      = st.code ++ [.instr [.num MATH, .num Math.ADD_I, .reg slot,
          .reg Variable.ZERO, .num n]] ∧
    (staticRegisterInit slot (some (.num n)) st).table slot = true ∧
    staticSetCall selfv w st2 = .error .typeError := by
  refine ⟨?_, ?_, rfl⟩
  · simp [staticRegisterInit, registerSet, emitAdd, isVarReg, emit, toArg]
  · simp [staticRegisterInit, registerSet, emitAdd, isVarReg, emit, tset_same]

/-- C9: a single add_if call leaks two registers. On a state where only the
base registers plus the Global 100 and the Variable 50 are allocated, add_if
returns with the compare result System register 125 and the push scratch
Variable register 51 still marked used, though neither was allocated before the
call and neither is handed back to the caller. -/
theorem add_if_leak_C9_bug :
    (addIf Compare.EQUAL (.globReg 100) (.varReg 50) (.funcV 2) c9St).map
      (fun st => (st.table 125, st.table 51)) = .ok (true, true) ∧
    c9St.table 125 = false ∧ c9St.table 51 = false := by
  refine ⟨by decide, by decide, by decide⟩

/-- C8 counterexample: serializing an instruction whose third field is 300
does not fail; it silently renders that field with 9 bits, so the stream is 25
bits instead of 8 bits per field. -/
theorem construct_C8_counterexample :
    (construct [[2, 3, 300]]).length = 25 ∧ 25 ≠ 8 * 3 := by
  refine ⟨by decide, by decide⟩

end ExperiScript

namespace ExperiScript

/-- C2 amended: load(addrSlot, destSlot) does read array[array[addrSlot]] into
destSlot, but store(addrSlot, valueSlot) writes the second operand itself into
array[array[addrSlot]]; the operand is taken as an immediate value, not as a
slot to read from. The hypotheses keep every index inside the 255 slot array,
as any run respecting Python list bounds does. -/
theorem pyIndex_natIdx (len i : Nat) (h : i < len) :
    pyIndex len (i : Int) = .ok i := by
  have hlt : (i : Int) < (len : Int) := by exact_mod_cast h
  simp [pyIndex, hlt]

theorem pyIndex_intIdx (len : Nat) (i : Int) (h0 : 0 ≤ i)
    (h1 : i < (len : Int)) : pyIndex len i = .ok i.toNat := by
  simp [pyIndex, h0, h1]

theorem pyGetI_nat (regs : List Int) (i : Nat) (h : i < regs.length) :
    pyGetI regs (i : Int) = .ok (regs.getD i 0) := by
  unfold pyGetI
  rw [pyIndex_natIdx regs.length i h]
  rfl

theorem pyGetI_int (regs : List Int) (i : Int) (h0 : 0 ≤ i)
    (h1 : i < (regs.length : Int)) :
    pyGetI regs i = .ok (regs.getD i.toNat 0) := by
  unfold pyGetI
  rw [pyIndex_intIdx regs.length i h0 h1]
  rfl

theorem pySetI_nat (regs : List Int) (i : Nat) (v : Int)
    (h : i < regs.length) : pySetI regs (i : Int) v = .ok (regs.set i v) := by
  unfold pySetI
  rw [pyIndex_natIdx regs.length i h]
  rfl

theorem pySetI_int (regs : List Int) (i : Int) (v : Int) (h0 : 0 ≤ i)
    (h1 : i < (regs.length : Int)) :
    pySetI regs i v = .ok (regs.set i.toNat v) := by
  unfold pySetI
  rw [pyIndex_intIdx regs.length i h0 h1]
  rfl

/-- C2 amended: load(addrSlot, destSlot) does read array[array[addrSlot]] into
destSlot, but store(addrSlot, valueSlot) writes the second operand itself into
array[array[addrSlot]]; the operand is taken as an immediate value, not as a
slot to read from. The hypotheses keep every index inside the 255 slot array,
as any run respecting Python list bounds does. -/
theorem memory_C2_amended (regs : List Int) (addrSlot valueSlot dest : Nat)
    (ha : addrSlot < regs.length)
    (h0 : 0 ≤ regs.getD addrSlot 0)
    (h1 : regs.getD addrSlot 0 < (regs.length : Int))
    (hd : dest < regs.length) :
    memStore regs addrSlot valueSlot
      = .ok (regs.set (regs.getD addrSlot 0).toNat valueSlot) ∧
    memLoad regs addrSlot dest
      = .ok (regs.set dest (regs.getD (regs.getD addrSlot 0).toNat 0)) := by
  constructor
  · unfold memStore
    rw [pyGetI_nat regs addrSlot ha]
    show pySetI regs (regs.getD addrSlot 0) (valueSlot : Int)
      = .ok (regs.set (regs.getD addrSlot 0).toNat (valueSlot : Int))
    exact pySetI_int regs _ _ h0 h1
  · unfold memLoad
    rw [pyGetI_nat regs addrSlot ha]
    show (do
      let v ← pyGetI regs (regs.getD addrSlot 0)
      pySetI regs (dest : Int) v)
      = .ok (regs.set dest (regs.getD (regs.getD addrSlot 0).toNat 0))
    rw [pyGetI_int regs _ h0 h1]
    show pySetI regs (dest : Int) (regs.getD (regs.getD addrSlot 0).toNat 0)
      = .ok (regs.set dest (regs.getD (regs.getD addrSlot 0).toNat 0))
    exact pySetI_nat regs dest _ hd

theorem memory_C2_amended_witness :
    5 < c2Regs.length ∧
    (memStore c2Regs 5 3 = .ok (c2Regs.set (c2Regs.getD 5 0).toNat 3) ∧
     memLoad c2Regs 5 9 = .ok (c2Regs.set 9 (c2Regs.getD (c2Regs.getD 5 0).toNat 0))) :=
  ⟨by decide,
   memory_C2_amended c2Regs 5 3 9 (by decide) (by decide) (by decide) (by decide)⟩

end ExperiScript

namespace ExperiScript

/-! ## Serializer lemmas -/

theorem bitsToNat_snoc (a : List Nat) (b : Nat) :
    bitsToNat (a ++ [b]) = 2 * bitsToNat a + b := by
  simp [bitsToNat, List.foldl_append]

theorem bitsToNat_binDigitsF :
    ∀ fuel x, x < fuel → bitsToNat (binDigitsF fuel x) = x := by
  intro fuel
  induction fuel with
  | zero => intro x h; omega
  | succ fuel ih =>
    intro x h
    by_cases h2 : x < 2
    · simp only [binDigitsF, if_pos h2]
      simp [bitsToNat]
    · simp only [binDigitsF, if_neg h2]
      rw [bitsToNat_snoc, ih (x / 2) (by omega)]
      omega

theorem bitsToNat_binDigits (x : Nat) : bitsToNat (binDigits x) = x :=
  bitsToNat_binDigitsF (x + 1) x (Nat.lt_succ_self x)

theorem binDigitsF_length_le :
    ∀ fuel k x, x < fuel → x < 2 ^ (k + 1) →
      (binDigitsF fuel x).length ≤ k + 1 := by
  intro fuel
  induction fuel with
  | zero => intro k x h; omega
  | succ fuel ih =>
    intro k x h hpow
    by_cases h2 : x < 2
    · simp [binDigitsF, if_pos h2]
    · simp only [binDigitsF, if_neg h2, List.length_append, List.length_cons,
        List.length_nil]
      cases k with
      | zero => omega
      | succ k =>
        have hmul : (2 : Nat) ^ (k + 1 + 1) = 2 ^ (k + 1) * 2 := by ring
        have hdiv : x / 2 < 2 ^ (k + 1) := by omega
        have := ih k (x / 2) (by omega) hdiv
        omega

theorem binDigits_length_le (x : Nat) (h : x < 256) :
    (binDigits x).length ≤ 8 :=
  binDigitsF_length_le (x + 1) 7 x (Nat.lt_succ_self x) (by omega)

theorem binDigitsF_length_pos :
    ∀ fuel x, 0 < fuel → 0 < (binDigitsF fuel x).length := by
  intro fuel
  cases fuel with
  | zero => intro x h; omega
  | succ fuel =>
    intro x h
    by_cases h2 : x < 2
    · simp [binDigitsF, if_pos h2]
    · simp [binDigitsF, if_neg h2]

theorem fmt08_length (x : Nat) (h : x < 256) : (fmt08 x).length = 8 := by
  have := binDigits_length_le x h
  simp only [fmt08, List.length_append, List.length_replicate]
  omega

theorem fmt08_length_pos (x : Nat) : 0 < (fmt08 x).length := by
  have := binDigitsF_length_pos (x + 1) x (Nat.succ_pos x)
  simp only [fmt08, List.length_append, List.length_replicate]
  unfold binDigits
  omega

theorem bitsToNat_zero_cons (l : List Nat) : bitsToNat (0 :: l) = bitsToNat l := by
  simp [bitsToNat]

theorem bitsToNat_pad (m : Nat) (d : List Nat) :
    bitsToNat (List.replicate m 0 ++ d) = bitsToNat d := by
  induction m with
  | zero => simp
  | succ m ih => rw [List.replicate_succ, List.cons_append, bitsToNat_zero_cons, ih]

theorem fmt08_val (x : Nat) : bitsToNat (fmt08 x) = x := by
  rw [fmt08, bitsToNat_pad, bitsToNat_binDigits]

theorem pByte_chunk (c rest : List Nat) (h : c.length = 8) :
    pByte (c ++ rest) = some (bitsToNat c, rest) := by
  cases c with
  | nil => simp at h
  | cons a as =>
    show pByte (a :: (as ++ rest)) = _
    simp only [pByte]
    rw [show a :: (as ++ rest) = (a :: as) ++ rest from rfl, ← h,
      List.take_left, List.drop_left]

theorem pFields_chunks :
    ∀ fields rest, (∀ x ∈ fields, x < 256) →
      pFields fields.length (fields.flatMap fmt08 ++ rest)
        = some (fields, rest) := by
  intro fields
  induction fields with
  | nil => intro rest h; simp [pFields]
  | cons f fs ih =>
    intro rest h
    have hf : f < 256 := h f (List.mem_cons_self f fs)
    show pFields (fs.length + 1) ((fmt08 f ++ fs.flatMap fmt08) ++ rest)
      = some (f :: fs, rest)
    rw [List.append_assoc]
    simp only [pFields]
    rw [pByte_chunk (fmt08 f) _ (fmt08_length f hf), fmt08_val f]
    simp only [Option.bind_eq_bind, Option.some_bind]
    rw [ih rest (fun x hx => h x (List.mem_cons_of_mem f hx))]
    rfl

theorem construct_cons (i : List Nat) (l : List (List Nat)) :
    construct (i :: l) = i.flatMap fmt08 ++ construct l := by
  simp [construct]

theorem construct_wf_ne_nil (c : Nat) (fs : List Nat) (l : List (List Nat)) :
    construct ((c :: fs) :: l) ≠ [] := by
  rw [construct_cons]
  intro hcontra
  have h1 := congrArg List.length hcontra
  simp only [List.length_append, List.length_nil] at h1
  have h2 : ((c :: fs).flatMap fmt08).length
      = (fmt08 c ++ fs.flatMap fmt08).length := by
    rw [List.flatMap_cons]
  have := fmt08_length_pos c
  simp only [List.length_append] at h2
  omega

theorem parse_construct :
    ∀ l, l ≠ [] → (∀ i ∈ l, i.head? = some (i.length - 1)) →
      (∀ i ∈ l, ∀ x ∈ i, x < 256) →
      parseStream l.length (construct l) = some l := by
  intro l
  induction l with
  | nil => intro h; exact absurd rfl h
  | cons i rest ih =>
    intro _ hshape hbound
    obtain ⟨c, fs, rfl⟩ : ∃ c fs, i = c :: fs := by
      cases i with
      | nil => have := hshape [] (List.mem_cons_self _ _); simp at this
      | cons c fs => exact ⟨c, fs, rfl⟩
    have hc : c = fs.length := by
      have := hshape (c :: fs) (List.mem_cons_self _ _)
      simp at this
      omega
    have hbi : ∀ x ∈ c :: fs, x < 256 :=
      hbound (c :: fs) (List.mem_cons_self _ _)
    have hcb : c < 256 := hbi c (List.mem_cons_self c fs)
    rw [construct_cons]
    show parseStream (rest.length + 1)
      ((fmt08 c ++ fs.flatMap fmt08) ++ construct rest) = _
    rw [List.append_assoc]
    simp only [parseStream]
    rw [pByte_chunk (fmt08 c) _ (fmt08_length c hcb), fmt08_val c]
    simp only [Option.bind_eq_bind, Option.some_bind]
    rw [show pFields c (fs.flatMap fmt08 ++ construct rest)
        = pFields fs.length (fs.flatMap fmt08 ++ construct rest) from by rw [hc],
      pFields_chunks fs (construct rest)
        (fun x hx => hbi x (List.mem_cons_of_mem c hx))]
    simp only [Option.some_bind]
    cases rest with
    | nil => simp [construct]
    | cons j r =>
      obtain ⟨cj, fsj, rfl⟩ : ∃ cj fsj, j = cj :: fsj := by
        cases j with
        | nil =>
          have := hshape [] (List.mem_cons_of_mem _ (List.mem_cons_self _ _))
          simp at this
        | cons cj fsj => exact ⟨cj, fsj, rfl⟩
      have hne := construct_wf_ne_nil cj fsj r
      rw [if_neg (by simpa [List.isEmpty_iff] using hne)]
      rw [ih (by simp)
        (fun x hx => hshape x (List.mem_cons_of_mem _ hx))
        (fun x hx => hbound x (List.mem_cons_of_mem _ hx))]
      rfl

end ExperiScript

namespace ExperiScript

theorem omapM_mem_inv (f : α → Option β) :
    ∀ as bs, omapM f as = some bs → ∀ b ∈ bs, ∃ a ∈ as, f a = some b := by
  intro as
  induction as with
  | nil =>
    intro bs h b hb
    simp [omapM] at h
    subst h
    simp at hb
  | cons a as ih =>
    intro bs h b hb
    simp only [omapM] at h
    cases hfa : f a with
    | none => rw [hfa] at h; simp at h
    | some b0 =>
      rw [hfa] at h
      simp only [Option.bind_eq_bind, Option.some_bind] at h
      cases hrec : omapM f as with
      | none => rw [hrec] at h; simp at h
      | some bs0 =>
        rw [hrec] at h
        simp at h
        subst h
        rcases List.mem_cons.mp hb with rfl | hmem
        · exact ⟨a, List.mem_cons_self _ _, hfa⟩
        · obtain ⟨a1, ha1, hfa1⟩ := ih bs0 hrec b hmem
          exact ⟨a1, List.mem_cons_of_mem a ha1, hfa1⟩

/-- Every linked instruction starts with a length prefix equal to its number
of remaining fields, by construction of Script.link. -/
theorem linkItems_shape (its : List Item) (l : List (List Nat))
    (h : linkItems its = some l) : ∀ i ∈ l, i.head? = some (i.length - 1) := by
  intro i hi
  obtain ⟨a, _, hone⟩ := omapM_mem_inv _ _ _ h i hi
  unfold linkOne at hone
  cases hm : omapM (resolveArg its) a with
  | none => rw [hm] at hone; simp at hone
  | some fs =>
    rw [hm] at hone
    simp at hone
    subst hone
    simp

/-- C4: serializing a linked program (at least one real instruction, every
field in the 8 bit range the wire format carries) to the bit stream and
parsing it back with the stream parser reproduces exactly the linked field
lists, length prefixes included. -/
theorem serializer_roundtrip_C4 (its : List Item) (l : List (List Nat))
    (hlink : linkItems its = some l) (hne : l ≠ [])
    (hb : ∀ i ∈ l, ∀ x ∈ i, x < 256) :
    parseStream l.length (construct l) = some l :=
  parse_construct l hne (linkItems_shape its l hlink) hb

theorem serializer_roundtrip_C4_witness :
    linkItems c4Items = some c4Linked ∧ c4Linked ≠ [] ∧
    (∀ i ∈ c4Linked, ∀ x ∈ i, x < 256) ∧
    parseStream c4Linked.length (construct c4Linked) = some c4Linked := by
  have h : linkItems c4Items = some c4Linked := by decide
  exact ⟨h, by decide, by decide,
    serializer_roundtrip_C4 c4Items c4Linked h (by decide) (by decide)⟩

theorem flatMap_fmt08_length (i : List Nat) (h : ∀ x ∈ i, x < 256) :
    (i.flatMap fmt08).length = 8 * i.length := by
  induction i with
  | nil => simp
  | cons x xs ih =>
    rw [List.flatMap_cons]
    simp only [List.length_append, List.length_cons]
    rw [fmt08_length x (h x (List.mem_cons_self x xs)),
      ih (fun y hy => h y (List.mem_cons_of_mem x hy))]
    ring

/-- C8 amended: binary serialization never fails. When every field value fits
in 8 bits it produces exactly 8 bits per field; a larger field is rendered
with its full (longer) binary representation instead of raising any
FieldOverflow error, as the counterexample shows. -/
theorem construct_C8_amended (l : List (List Nat))
    (h : ∀ i ∈ l, ∀ x ∈ i, x < 256) :
    (construct l).length = 8 * (l.map List.length).sum := by
  induction l with
  | nil => simp [construct]
  | cons i rest ih =>
    rw [construct_cons]
    simp only [List.length_append, List.map_cons, List.sum_cons]
    rw [flatMap_fmt08_length i (h i (List.mem_cons_self i rest)),
      ih (fun j hj => h j (List.mem_cons_of_mem i hj))]
    ring

theorem construct_C8_amended_witness :
    (∀ i ∈ c4Linked, ∀ x ∈ i, x < 256) ∧
    (construct c4Linked).length = 8 * (c4Linked.map List.length).sum :=
  ⟨by decide, construct_C8_amended c4Linked (by decide)⟩

end ExperiScript

namespace ExperiScript

/-! ## Linker layout lemmas -/

theorem realCount_nil : realCount [] = 0 := rfl

theorem realCount_cons_instr (a : List Arg) (r : List Item) :
    realCount (.instr a :: r) = realCount r + 1 := by
  simp [realCount, realInstrs]

theorem realCount_cons_log (r : List Item) :
    realCount (.logNote :: r) = realCount r := by
  simp [realCount, realInstrs]

theorem realCount_cons_mark (m : Nat) (r : List Item) :
    realCount (.mark m :: r) = realCount r := by
  simp [realCount, realInstrs]

theorem markerLineAux_append (id : Nat) (a : List Item) :
    ∀ b c acc, Item.mark id ∉ a →
      markerLineAux id (a ++ b) c acc
        = markerLineAux id b (c + realCount a) acc := by
  induction a with
  | nil => intro b c acc h; simp [realCount_nil]
  | cons x xs ih =>
    intro b c acc h
    have hx : Item.mark id ∉ xs := fun hmem => h (List.mem_cons_of_mem x hmem)
    cases x with
    | instr f =>
      rw [List.cons_append]
      show markerLineAux id (xs ++ b) (c + 1) acc = _
      rw [ih b (c + 1) acc hx, realCount_cons_instr]
      congr 1
      omega
    | logNote =>
      rw [List.cons_append]
      show markerLineAux id (xs ++ b) c acc = _
      rw [ih b c acc hx, realCount_cons_log]
    | mark m =>
      have hne : m ≠ id := by
        intro hcontra
        subst hcontra
        exact h (List.mem_cons_self _ _)
      rw [List.cons_append]
      show markerLineAux id (xs ++ b) c (if m = id then some c else acc) = _
      rw [if_neg hne, ih b c acc hx, realCount_cons_mark]

theorem markerLineAux_no_mark (id : Nat) :
    ∀ its c acc, Item.mark id ∉ its → markerLineAux id its c acc = acc := by
  intro its
  induction its with
  | nil => intro c acc h; rfl
  | cons x xs ih =>
    intro c acc h
    have hx : Item.mark id ∉ xs := fun hmem => h (List.mem_cons_of_mem x hmem)
    cases x with
    | instr f => show markerLineAux id xs (c + 1) acc = acc; exact ih (c + 1) acc hx
    | logNote => show markerLineAux id xs c acc = acc; exact ih c acc hx
    | mark m =>
      have hne : m ≠ id := by
        intro hcontra
        subst hcontra
        exact h (List.mem_cons_self _ _)
      show markerLineAux id xs c (if m = id then some c else acc) = acc
      rw [if_neg hne]
      exact ih c acc hx

/-- The start marker of a Script resolves to the address just past the start
instructions and the function bodies: the address of the first main body
instruction. -/
theorem markerLine_scriptItems (funcs mainB : List Item)
    (hf : Item.mark 1 ∉ funcs) (hm : Item.mark 1 ∉ mainB) :
    markerLine (scriptItems funcs mainB) 1 = some (2 + realCount funcs) := by
  unfold markerLine scriptItems scriptStartItems
  show markerLineAux 1 (funcs ++ (Item.mark 1 :: Item.logNote :: mainB))
    (0 + 1 + 1) none = _
  rw [markerLineAux_append 1 funcs _ (0 + 1 + 1) none hf]
  show markerLineAux 1 (Item.logNote :: mainB) (0 + 1 + 1 + realCount funcs)
    (if (1 : Nat) = 1 then some (0 + 1 + 1 + realCount funcs) else none) = _
  rw [if_pos rfl]
  show markerLineAux 1 mainB (0 + 1 + 1 + realCount funcs)
    (some (0 + 1 + 1 + realCount funcs)) = _
  rw [markerLineAux_no_mark 1 mainB _ _ hm]

end ExperiScript

namespace ExperiScript

theorem realInstrs_scriptItems (funcs mainB : List Item) :
    realInstrs (scriptItems funcs mainB)
      = [Arg.num MATH, Arg.num Math.ADD_I, Arg.reg 250,
          Arg.reg Variable.ZERO, Arg.num 150]
        :: [Arg.num CONTROL, Arg.num Control.JUMP_I, Arg.marker 1]
        :: (realInstrs funcs ++ realInstrs mainB) := by
  unfold scriptItems scriptStartItems realInstrs
  simp [List.filterMap_append, List.filterMap_cons]

theorem linkOne_start1 (its : List Item) :
    linkOne its [Arg.num MATH, Arg.num Math.ADD_I, Arg.reg 250,
      Arg.reg Variable.ZERO, Arg.num 150]
      = some [5, MATH, Math.ADD_I, 250, Variable.ZERO, 150] := rfl

theorem linkOne_start2 (its : List Item) (a : Nat)
    (hml : markerLine its 1 = some a) :
    linkOne its [Arg.num CONTROL, Arg.num Control.JUMP_I, Arg.marker 1]
      = some [3, CONTROL, Control.JUMP_I, a] := by
  unfold linkOne
  simp [omapM, resolveArg, hml]

/-- C10 amended: in every built and linked Script the instruction at address 0
is the stack pointer initialization (add immediate writing 150 into slot 250),
and the instruction at address 1 is the immediate jump whose operand resolves
to the address right after the function bodies, which is where the first real
instruction of the main body sits; executing that jump sets the program
counter there, so the function bodies are skipped at startup rather than
entered by fall through (only the one prologue instruction runs first). -/
theorem script_layout_C10_amended (funcs mainB : List Item)
    (l : List (List Nat))
    (hf : Item.mark 1 ∉ funcs) (hm : Item.mark 1 ∉ mainB)
    (hlink : linkItems (scriptItems funcs mainB) = some l) :
    l.take 2 = [[5, MATH, Math.ADD_I, 250, Variable.ZERO, 150],
      [3, CONTROL, Control.JUMP_I, 2 + realCount funcs]] ∧
    realCount (scriptStartItems ++ funcs) = 2 + realCount funcs ∧
    ∀ s : VMState,
      execInst [3, CONTROL, Control.JUMP_I, 2 + realCount funcs] s
        = .ok { s with current_idx := ((2 + realCount funcs : Nat) : Int) } := by
  have hml := markerLine_scriptItems funcs mainB hf hm
  unfold linkItems at hlink
  rw [realInstrs_scriptItems] at hlink
  simp only [omapM] at hlink
  rw [linkOne_start1, linkOne_start2 _ _ hml] at hlink
  simp only [Option.bind_eq_bind, Option.some_bind] at hlink
  cases hrest : omapM (linkOne (scriptItems funcs mainB))
      (realInstrs funcs ++ realInstrs mainB) with
  | none => rw [hrest] at hlink; simp at hlink
  | some l2 =>
    rw [hrest] at hlink
    simp at hlink
    subst hlink
    refine ⟨rfl, ?_, fun s => rfl⟩
    unfold realCount
    rw [show realInstrs (scriptStartItems ++ funcs)
        = realInstrs scriptStartItems ++ realInstrs funcs from by
      unfold realInstrs; simp [List.filterMap_append]]
    simp [realInstrs, scriptStartItems]
    omega

/-- C10 counterexample: in a concrete built and linked Script the instruction
at address 0 is [5, 3, 1, 250, 252, 150] — domain MATH with opcode ADD_I, the
stack pointer initialization — not an immediate jump (domain CONTROL); the
jump to the main body sits at address 1. -/
theorem script_layout_C10_counterexample :
    (linkItems (scriptItems c10Funcs c10Main)).map (fun l => l.getD 0 [])
      = some [5, 3, 1, 250, 252, 150] ∧
    [5, 3, 1, 250, 252, 150].getD 1 0 = MATH ∧
    MATH ≠ CONTROL := by
  refine ⟨by decide, by decide, by decide⟩

theorem script_layout_C10_amended_witness :
    (Item.mark 1 ∉ c10Funcs) ∧ (Item.mark 1 ∉ c10Main) ∧
    linkItems (scriptItems c10Funcs c10Main) = some c10Linked ∧
    (c10Linked.take 2 = [[5, MATH, Math.ADD_I, 250, Variable.ZERO, 150],
        [3, CONTROL, Control.JUMP_I, 2 + realCount c10Funcs]] ∧
      realCount (scriptStartItems ++ c10Funcs) = 2 + realCount c10Funcs ∧
      ∀ s : VMState,
        execInst [3, CONTROL, Control.JUMP_I, 2 + realCount c10Funcs] s
          = .ok { s with current_idx := ((2 + realCount c10Funcs : Nat) : Int) }) := by
  have h : linkItems (scriptItems c10Funcs c10Main) = some c10Linked := by decide
  exact ⟨by decide, by decide, h,
    script_layout_C10_amended c10Funcs c10Main c10Linked
      (by decide) (by decide) h⟩

end ExperiScript
